import Mathlib

/-!
Verification development for the codescan-ai repository.

The repository has two analysis paths:
* a mock client-side analyzer (frontend/src/api/analyze.ts, `analyzeCode`)
  doing substring checks to produce a deterministic AnalysisResult, and
* an edge route handler (frontend/dist/api/analyze/route.ts, `POST`)
  that validates the request, calls an external generative-text endpoint,
  extracts the first-brace-to-last-brace span from the reply text and
  parses it as JSON.

This file embeds both paths.  JavaScript strings are modelled as `List Char`
(wrapped in `String` at the boundary), JSON values as the inductive `Json`
with integer numbers and with the quote and backslash escapes (the fragment
exercised by the repository), and `JSON.parse` as the executable recursive
descent parser `parseJson`.  A failing `JSON.parse` is modelled as `none`,
matching the thrown exception that the route catches.
-/

/-! ## JSON values

Mutual inductive so that structural proofs about lists of elements and
members stay straightforward. -/

mutual

inductive Json where
  | null : Json
  | bool (b : Bool) : Json
  | num (n : Int) : Json
  | str (s : List Char) : Json
  | arr (elems : JsonList) : Json
  | obj (members : JsonMembers) : Json

inductive JsonList where
  | nil : JsonList
  | cons (hd : Json) (tl : JsonList) : JsonList

inductive JsonMembers where
  | nil : JsonMembers
  | cons (key : List Char) (val : Json) (tl : JsonMembers) : JsonMembers

end

/-! ## Digits -/

def digitCh (d : Nat) : Char := Char.ofNat (48 + d)

def charToDigit (c : Char) : Nat :=
  if c = '0' then 0 else if c = '1' then 1 else if c = '2' then 2
  else if c = '3' then 3 else if c = '4' then 4 else if c = '5' then 5
  else if c = '6' then 6 else if c = '7' then 7 else if c = '8' then 8
  else if c = '9' then 9 else 0

def isDigitCh (c : Char) : Bool :=
  c = '0' || c = '1' || c = '2' || c = '3' || c = '4' ||
  c = '5' || c = '6' || c = '7' || c = '8' || c = '9'

def natToDigitsRev (n : Nat) : List Char :=
  if h : n < 10 then [digitCh n]
  else digitCh (n % 10) :: natToDigitsRev (n / 10)
termination_by n
decreasing_by
  exact Nat.div_lt_self (by omega) (by omega)

def natDigits (n : Nat) : List Char := (natToDigitsRev n).reverse

def digitsVal (ds : List Char) : Nat :=
  List.foldl (fun a c => a * 10 + charToDigit c) 0 ds

/-! ## Serialization (the JSON.stringify fragment used here) -/

def escStr : List Char → List Char
  | [] => []
  | c :: rest => (if c = '"' || c = '\\' then ['\\', c] else [c]) ++ escStr rest

def serNum (n : Int) : List Char :=
  if n < 0 then '-' :: natDigits n.natAbs else natDigits n.toNat

mutual

def serJson : Json → List Char
  | .num n => serNum n
  | .str s => '"' :: escStr s ++ ['"']
  | .null => ['n', 'u', 'l', 'l']
  | .bool b => if b then ['t', 'r', 'u', 'e'] else ['f', 'a', 'l', 's', 'e']
  | .arr l => '[' :: serList l ++ [']']
  | .obj m => '{' :: serMembers m ++ ['}']

def serList : JsonList → List Char
  | .nil => []
  | .cons j .nil => serJson j
  | .cons j (.cons j2 tl) => serJson j ++ ',' :: serList (.cons j2 tl)

def serMembers : JsonMembers → List Char
  | .nil => []
  | .cons k v .nil => '"' :: escStr k ++ '"' :: ':' :: serJson v
  | .cons k v (.cons k2 v2 tl) =>
      ('"' :: escStr k ++ '"' :: ':' :: serJson v) ++
        ',' :: serMembers (.cons k2 v2 tl)

end

/-! ## Parsing (the JSON.parse fragment exercised by the repository)

Recursive descent with a fuel argument; `parseJson` supplies fuel
`length + 1`, which suffices for every serialized value (proved below).
String bodies stop at an unescaped quote; a backslash makes the next
character literal. -/

def pStr : List Char → Option (List Char × List Char)
  | [] => none
  | c :: rest =>
    if c = '"' then some ([], rest)
    else if c = '\\' then
      match rest with
      | [] => none
      | d :: rest2 => (pStr rest2).map (fun p => (d :: p.1, p.2))
    else (pStr rest).map (fun p => (c :: p.1, p.2))

def pDigits : List Char → (List Char × List Char)
  | [] => ([], [])
  | c :: rest =>
    if isDigitCh c then
      let p := pDigits rest
      (c :: p.1, p.2)
    else ([], c :: rest)

mutual

def pVal : Nat → List Char → Option (Json × List Char)
  | 0, _ => none
  | _ + 1, [] => none
  | f + 1, c :: rest =>
    if c = 'n' then
      match rest with
      | 'u' :: 'l' :: 'l' :: r => some (.null, r)
      | _ => none
    else if c = 't' then
      match rest with
      | 'r' :: 'u' :: 'e' :: r => some (.bool true, r)
      | _ => none
    else if c = 'f' then
      match rest with
      | 'a' :: 'l' :: 's' :: 'e' :: r => some (.bool false, r)
      | _ => none
    else if c = '"' then
      (pStr rest).map (fun p => (.str p.1, p.2))
    else if c = '[' then
      match rest with
      | [] => none
      | r0 :: r1 =>
        if r0 = ']' then some (.arr .nil, r1)
        else (pElems f (r0 :: r1)).map (fun p => (.arr p.1, p.2))
    else if c = '{' then
      match rest with
      | [] => none
      | r0 :: r1 =>
        if r0 = '}' then some (.obj .nil, r1)
        else (pMembers f (r0 :: r1)).map (fun p => (.obj p.1, p.2))
    else if c = '-' then
      match rest with
      | [] => none
      | d :: _ =>
        if isDigitCh d then
          let p := pDigits rest
          some (.num (-(digitsVal p.1 : Int)), p.2)
        else none
    else if isDigitCh c then
      let p := pDigits (c :: rest)
      some (.num (digitsVal p.1 : Int), p.2)
    else none

def pElems : Nat → List Char → Option (JsonList × List Char)
  | 0, _ => none
  | f + 1, s =>
    match pVal f s with
    | none => none
    | some (j, rest) =>
      match rest with
      | [] => none
      | c :: r2 =>
        if c = ',' then (pElems f r2).map (fun p => (.cons j p.1, p.2))
        else if c = ']' then some (.cons j .nil, r2)
        else none

def pMembers : Nat → List Char → Option (JsonMembers × List Char)
  | 0, _ => none
  | f + 1, s =>
    match s with
    | [] => none
    | c :: rest =>
      if c = '"' then
        match pStr rest with
        | none => none
        | some (k, r2) =>
          match r2 with
          | [] => none
          | c2 :: r3 =>
            if c2 = ':' then
              match pVal f r3 with
              | none => none
              | some (v, r4) =>
                match r4 with
                | [] => none
                | c3 :: r5 =>
                  if c3 = ',' then
                    (pMembers f r5).map (fun p => (.cons k v p.1, p.2))
                  else if c3 = '}' then some (.cons k v .nil, r5)
                  else none
            else none
      else none

end

/-- JSON.parse model: parse one value consuming the whole input, else fail
(the thrown SyntaxError is modelled as `none`). -/
def parseJson (s : List Char) : Option Json :=
  match pVal (s.length + 1) s with
  | some (j, []) => some j
  | _ => none

/-! ## The regex extraction of the route

`text.match(/\x7b[\s\S]*\x7d/)` finds a span from the first opening brace
to the last closing brace after it; the model returns that span. -/

def dropUntilBrace : List Char → Option (List Char)
  | [] => none
  | c :: rest => if c = '{' then some (c :: rest) else dropUntilBrace rest

def dropUntilClose : List Char → Option (List Char)
  | [] => none
  | c :: rest => if c = '}' then some (c :: rest) else dropUntilClose rest

def extractJson (s : List Char) : Option (List Char) :=
  (dropUntilBrace s).bind (fun t => (dropUntilClose t.reverse).map (fun u => u.reverse))

/-! ## The POST /analyze handler (frontend/dist/api/analyze/route.ts)

The external endpoint is stubbed by `Upstream`; the second component of
the result counts fetches to it.  A request body that is not valid JSON
makes `request.json()` throw inside the try block, caught by the final
catch.  Destructuring `null` also throws.  The falsy check `!code`
rejects `undefined`, `null`, `false`, `0` and the empty string only. -/

inductive Upstream where
  | httpError
  | noText
  | text (t : String)

inductive Resp where
  | ok (result : Json)
  | err (status : Nat) (msg : String)

def findKey : JsonMembers → List Char → Option Json
  | .nil, _ => none
  | .cons k v tl, key => if k = key then some v else findKey tl key

def getField : Json → List Char → Option Json
  | .obj ms, k => findKey ms k
  | _, _ => none

def jsFalsy : Option Json → Bool
  | none => true
  | some .null => true
  | some (.bool false) => true
  | some (.num 0) => true
  | some (.str []) => true
  | some _ => false

def POST (body : String) (apiKey : Option String) (up : Upstream) :
    Resp × Nat :=
  match parseJson body.data with
  | none => (.err 500 "Internal server error", 0)
  | some .null => (.err 500 "Internal server error", 0)
  | some bj =>
    if jsFalsy (getField bj "code".data) then
      (.err 400 "Code is required", 0)
    else
      match apiKey with
      | none => (.err 500 "Gemini API key not configured", 0)
      | some _ =>
        match up with
        | .httpError => (.err 500 "Analysis service unavailable", 1)
        | .noText => (.err 500 "No analysis generated", 1)
        | .text t =>
          if t.isEmpty then (.err 500 "No analysis generated", 1)
          else
            match extractJson t.data with
            | none => (.err 500 "Invalid analysis format", 1)
            | some span =>
              match parseJson span with
              | none => (.err 500 "Internal server error", 1)
              | some analysis => (.ok analysis, 1)

/-! ## The mock analyzer (frontend/src/api/analyze.ts, `analyzeCode`)

The language tag of the source signature is ignored by its logic and the
artificial setTimeout delay has no observable effect on the result, so
both are dropped from the embedding. -/

inductive Severity where
  | error
  | warning
  | info
deriving DecidableEq

inductive Complexity where
  | Low
  | Medium
  | High
deriving DecidableEq

inductive Maintainability where
  | Poor
  | Fair
  | Good
  | Excellent
deriving DecidableEq

inductive SecurityRating where
  | Critical
  | Poor
  | Fair
  | Good
  | Excellent
deriving DecidableEq

inductive PerformanceRating where
  | Poor
  | Fair
  | Good
  | Excellent
deriving DecidableEq

structure Issue where
  line : Nat
  severity : Severity
  message : String
  type : String
  suggestion : Option String
deriving DecidableEq

structure Metrics where
  complexity : Complexity
  maintainability : Maintainability
  security : SecurityRating
  performance : PerformanceRating
deriving DecidableEq

structure AnalysisResult where
  score : Int
  issues : List Issue
  metrics : Metrics
  summary : String
  analysisTime : ℚ
deriving DecidableEq

/-- JavaScript `includes` on lists of characters: substring anywhere. -/
def listStartsWith : List Char → List Char → Bool
  | _, [] => true
  | [], _ :: _ => false
  | c :: cs, d :: ds => c = d && listStartsWith cs ds

def hasSubL : List Char → List Char → Bool
  | [], sub => sub.isEmpty
  | c :: rest, sub => listStartsWith (c :: rest) sub || hasSubL rest sub

def hasSub (s sub : String) : Bool := hasSubL s.data sub.data

/-- JavaScript `split('\n')`: split at every newline, keeping empty pieces. -/
def splitLines : List Char → List (List Char)
  | [] => [[]]
  | c :: rest =>
    match splitLines rest with
    | [] => [[c]]
    | l :: ls => if c = '\n' then [] :: l :: ls else (c :: l) :: ls

def firstLineWithAux (p : List Char → Bool) : Nat → List (List Char) → Nat
  | _, [] => 0
  | i, l :: ls => if p l then i else firstLineWithAux p (i + 1) ls

/-- The `findIndex(...) + 1` line attribution of the mock analyzer: the
1-based index of the first line satisfying `p`, and 0 when no line does
(findIndex returns -1 there). -/
def firstLineWith (code : String) (p : List Char → Bool) : Nat :=
  firstLineWithAux p 1 (splitLines code.data)

def sqlIssue (code : String) : Issue :=
  { line := firstLineWith code
      (fun l => hasSubL l "SELECT".data && hasSubL l "+".data)
  , severity := .error
  , message := "SQL injection vulnerability detected"
  , type := "Security"
  , suggestion := some "Use parameterized queries or prepared statements" }

def evalIssue (code : String) : Issue :=
  { line := firstLineWith code (fun l => hasSubL l "eval".data)
  , severity := .error
  , message := "Use of eval() function is dangerous"
  , type := "Security"
  , suggestion := some "Avoid eval() and use safer alternatives" }

def consoleIssue (code : String) : Issue :=
  { line := firstLineWith code (fun l => hasSubL l "console.log".data)
  , severity := .warning
  , message := "Console.log statements should be removed in production"
  , type := "Best Practice"
  , suggestion := some "Remove or replace with proper logging" }

def analyzeCode (code : String) : AnalysisResult :=
  let t1 := hasSub code "SELECT" && hasSub code "+"
  let t2 := hasSub code "eval("
  let t3 := hasSub code "console.log"
  let issues :=
    (if t1 then [sqlIssue code] else []) ++
    (if t2 then [evalIssue code] else []) ++
    (if t3 then [consoleIssue code] else [])
  let score : Int :=
    85 - (if t1 then 25 else 0) - (if t2 then 20 else 0) -
      (if t3 then 5 else 0)
  { score := max 0 score
  , issues := issues
  , metrics :=
    { complexity :=
        if code.length > 500 then .High
        else if code.length > 200 then .Medium else .Low
    , maintainability :=
        if score > 70 then .Good else if score > 50 then .Fair else .Poor
    , security :=
        if (issues.filter (fun i => i.type == "Security")).length > 0
        then .Poor else .Good
    , performance := .Good }
  , summary := "Analysis complete. Found " ++ toString issues.length ++
      " issues requiring attention."
  , analysisTime := 3 / 2 }


/-- Head of the remaining input is not a digit (the continuation after a
serialized number in context: a comma, a closing bracket, or the end). -/
def digitSafe : List Char → Bool
  | [] => true
  | c :: _ => !isDigitCh c

/-! ## Digit lemmas -/

theorem isDigitCh_digitCh (d : Nat) (h : d < 10) : isDigitCh (digitCh d) = true := by
  interval_cases d <;> decide

theorem charToDigit_digitCh (d : Nat) (h : d < 10) : charToDigit (digitCh d) = d := by
  interval_cases d <;> decide

theorem isDigitCh_elim (c : Char) (h : isDigitCh c = true) :
    c = '0' ∨ c = '1' ∨ c = '2' ∨ c = '3' ∨ c = '4' ∨ c = '5' ∨ c = '6' ∨
      c = '7' ∨ c = '8' ∨ c = '9' := by
  simp [isDigitCh] at h
  tauto

theorem natToDigitsRev_ne_nil (n : Nat) : natToDigitsRev n ≠ [] := by
  rw [natToDigitsRev]
  split <;> simp

theorem natToDigitsRev_digits (n : Nat) :
    ∀ c ∈ natToDigitsRev n, isDigitCh c = true := by
  induction n using Nat.strong_induction_on with
  | _ n ih =>
    rw [natToDigitsRev]
    split
    · next h =>
      intro c hc
      simp only [List.mem_singleton] at hc
      subst hc
      exact isDigitCh_digitCh n h
    · next h =>
      intro c hc
      rcases List.mem_cons.mp hc with rfl | hm
      · exact isDigitCh_digitCh _ (Nat.mod_lt _ (by omega))
      · exact ih (n / 10) (Nat.div_lt_self (by omega) (by omega)) c hm

theorem foldl_digitsVal (n : Nat) :
    ∀ a : Nat, List.foldl (fun a c => a * 10 + charToDigit c) a (natDigits n) =
      a * 10 ^ (natDigits n).length + n := by
  induction n using Nat.strong_induction_on with
  | _ n ih =>
    intro a
    rw [natDigits, natToDigitsRev]
    split
    · next h =>
      simp [List.foldl, charToDigit_digitCh n h]
    · next h =>
      rw [List.reverse_cons, List.foldl_append,
        show (natToDigitsRev (n / 10)).reverse = natDigits (n / 10) from rfl,
        ih (n / 10) (Nat.div_lt_self (by omega) (by omega)) a]
      have hd := charToDigit_digitCh (n % 10) (Nat.mod_lt _ (by omega))
      simp only [List.foldl, hd, List.length_append, List.length_reverse,
        List.length_cons, List.length_singleton]
      have hlen : (natDigits (n / 10)).length = (natToDigitsRev (n / 10)).length := by
        simp [natDigits]
      rw [hlen]
      have hmod : n / 10 * 10 + n % 10 = n := by omega
      calc (a * 10 ^ (natToDigitsRev (n / 10)).length + n / 10) * 10 + n % 10
          = a * (10 ^ (natToDigitsRev (n / 10)).length * 10) +
              (n / 10 * 10 + n % 10) := by ring
        _ = a * 10 ^ ((natToDigitsRev (n / 10)).length + 1) + n := by
              rw [pow_succ, hmod]

theorem digitsVal_natDigits (n : Nat) : digitsVal (natDigits n) = n := by
  have := foldl_digitsVal n 0
  simpa [digitsVal] using this

theorem natDigits_cons (n : Nat) :
    ∃ d ds, natDigits n = d :: ds ∧ (∀ c ∈ d :: ds, isDigitCh c = true) := by
  have hne : natDigits n ≠ [] := by
    simp only [natDigits, ne_eq, List.reverse_eq_nil_iff]
    exact natToDigitsRev_ne_nil n
  rcases hd : natDigits n with _ | ⟨d, ds⟩
  · exact absurd hd hne
  · refine ⟨d, ds, rfl, ?_⟩
    intro c hc
    have : c ∈ natDigits n := by rw [hd]; exact hc
    simp only [natDigits, List.mem_reverse] at this
    exact natToDigitsRev_digits n c this

/-! ## Parser round trip -/

theorem pDigits_spec (ds : List Char) :
    ∀ rest, (∀ c ∈ ds, isDigitCh c = true) → digitSafe rest = true →
      pDigits (ds ++ rest) = (ds, rest) := by
  induction ds with
  | nil =>
    intro rest _ hsafe
    cases rest with
    | nil => rfl
    | cons c r =>
      have : isDigitCh c = false := by
        simpa [digitSafe] using hsafe
      simp [pDigits, this]
  | cons c ds ih =>
    intro rest hall hsafe
    have hc : isDigitCh c = true := hall c (by simp)
    have htl : ∀ x ∈ ds, isDigitCh x = true := fun x hx => hall x (by simp [hx])
    simp [pDigits, hc, ih rest htl hsafe]

theorem pStr_escStr (s : List Char) :
    ∀ rest, pStr (escStr s ++ '"' :: rest) = some (s, rest) := by
  induction s with
  | nil =>
    intro rest
    rw [show escStr [] ++ '"' :: rest = '"' :: rest by simp [escStr]]
    rw [pStr.eq_def]
    simp
  | cons c s ih =>
    intro rest
    by_cases hc : c = '"' ∨ c = '\\'
    · have hb : (c = '"' || c = '\\') = true := by
        rcases hc with rfl | rfl <;> simp
      rw [show escStr (c :: s) ++ '"' :: rest =
        '\\' :: c :: (escStr s ++ '"' :: rest) by simp [escStr, hb]]
      rw [pStr.eq_def]
      have hne : ('\\' : Char) ≠ '"' := by decide
      simp [hne, ih rest]
    · push_neg at hc
      have hb : (c = '"' || c = '\\') = false := by
        simp [hc.1, hc.2]
      rw [show escStr (c :: s) ++ '"' :: rest =
        c :: (escStr s ++ '"' :: rest) by simp [escStr, hb]]
      rw [pStr.eq_def]
      simp [hc.1, hc.2, ih rest]

theorem digit_ne_rbrack (c : Char) (h : isDigitCh c = true) : c ≠ ']' := by
  rcases isDigitCh_elim c h with rfl | rfl | rfl | rfl | rfl | rfl | rfl | rfl | rfl | rfl <;>
    decide

theorem natDigits_ne_nil (n : Nat) : natDigits n ≠ [] := by
  simp only [natDigits, ne_eq, List.reverse_eq_nil_iff]
  exact natToDigitsRev_ne_nil n

theorem serJson_ne_nil (j : Json) : serJson j ≠ [] := by
  cases j with
  | null => simp [serJson]
  | bool b => cases b <;> simp [serJson]
  | num n =>
    simp only [serJson, serNum]
    split
    · simp
    · exact natDigits_ne_nil _
  | str s => simp [serJson]
  | arr l => simp [serJson]
  | obj m => simp [serJson]

theorem serJson_head (j : Json) :
    ∃ c cs, serJson j = c :: cs ∧ c ≠ ']' := by
  cases j with
  | null => exact ⟨'n', ['u', 'l', 'l'], by simp [serJson], by decide⟩
  | bool b =>
    cases b
    · exact ⟨'f', ['a', 'l', 's', 'e'], by simp [serJson], by decide⟩
    · exact ⟨'t', ['r', 'u', 'e'], by simp [serJson], by decide⟩
  | num n =>
    by_cases hn : n < 0
    · exact ⟨'-', natDigits n.natAbs, by simp [serJson, serNum, hn], by decide⟩
    · obtain ⟨d, ds, hds, hall⟩ := natDigits_cons n.toNat
      refine ⟨d, ds, by simp [serJson, serNum, hn, hds], ?_⟩
      exact digit_ne_rbrack d (hall d (by simp))
  | str s => exact ⟨'"', escStr s ++ ['"'], by simp [serJson], by decide⟩
  | arr l => exact ⟨'[', serList l ++ [']'], by simp [serJson], by decide⟩
  | obj m => exact ⟨'{', serMembers m ++ ['}'], by simp [serJson], by decide⟩

theorem serList_cons_decomp (j : Json) (tl : JsonList) :
    ∃ X, serList (JsonList.cons j tl) = serJson j ++ X := by
  cases tl with
  | nil => exact ⟨[], by simp [serList]⟩
  | cons j2 tl2 => exact ⟨',' :: serList (.cons j2 tl2), by simp [serList]⟩

theorem serMembers_head (k : List Char) (v : Json) (tl : JsonMembers) :
    ∃ Y, serMembers (JsonMembers.cons k v tl) = '"' :: Y := by
  cases tl with
  | nil => exact ⟨escStr k ++ '"' :: ':' :: serJson v, by simp [serMembers]⟩
  | cons k2 v2 tl2 =>
    exact ⟨escStr k ++ '"' :: ':' :: serJson v ++
      ',' :: serMembers (.cons k2 v2 tl2), by simp [serMembers]⟩

/-! ## Step equations of the parser (definitional) -/

theorem pVal_null (f : Nat) (rest : List Char) :
    pVal (f + 1) ('n' :: 'u' :: 'l' :: 'l' :: rest) = some (.null, rest) := rfl

theorem pVal_true (f : Nat) (rest : List Char) :
    pVal (f + 1) ('t' :: 'r' :: 'u' :: 'e' :: rest) = some (.bool true, rest) := rfl

theorem pVal_false (f : Nat) (rest : List Char) :
    pVal (f + 1) ('f' :: 'a' :: 'l' :: 's' :: 'e' :: rest) =
      some (.bool false, rest) := rfl

theorem pVal_quote (f : Nat) (rest : List Char) :
    pVal (f + 1) ('"' :: rest) =
      (pStr rest).map (fun p => (.str p.1, p.2)) := rfl

theorem pVal_lbrack (f : Nat) (r0 : Char) (r1 : List Char) :
    pVal (f + 1) ('[' :: r0 :: r1) =
      (if r0 = ']' then some (.arr .nil, r1)
       else (pElems f (r0 :: r1)).map (fun p => (.arr p.1, p.2))) := rfl

theorem pVal_lbrace (f : Nat) (r0 : Char) (r1 : List Char) :
    pVal (f + 1) ('{' :: r0 :: r1) =
      (if r0 = '}' then some (.obj .nil, r1)
       else (pMembers f (r0 :: r1)).map (fun p => (.obj p.1, p.2))) := rfl

theorem pVal_dash (f : Nat) (d : Char) (r : List Char) :
    pVal (f + 1) ('-' :: d :: r) =
      (if isDigitCh d then
        some (.num (-(digitsVal (pDigits (d :: r)).1 : Int)),
          (pDigits (d :: r)).2)
       else none) := rfl

theorem pVal_digitCase (f : Nat) (c : Char) (rest : List Char)
    (h : isDigitCh c = true) :
    pVal (f + 1) (c :: rest) =
      some (.num (digitsVal (pDigits (c :: rest)).1 : Int),
        (pDigits (c :: rest)).2) := by
  rcases isDigitCh_elim c h with rfl | rfl | rfl | rfl | rfl | rfl | rfl | rfl | rfl | rfl <;>
    rfl

theorem pElems_succ (f : Nat) (s : List Char) :
    pElems (f + 1) s =
      (match pVal f s with
       | none => none
       | some (j, rest) =>
         match rest with
         | [] => none
         | c :: r2 =>
           if c = ',' then (pElems f r2).map (fun p => (.cons j p.1, p.2))
           else if c = ']' then some (.cons j .nil, r2)
           else none) := rfl

theorem pMembers_quote (f : Nat) (rest : List Char) :
    pMembers (f + 1) ('"' :: rest) =
      (match pStr rest with
       | none => none
       | some (k, r2) =>
         match r2 with
         | [] => none
         | c2 :: r3 =>
           if c2 = ':' then
             match pVal f r3 with
             | none => none
             | some (v, r4) =>
               match r4 with
               | [] => none
               | c3 :: r5 =>
                 if c3 = ',' then
                   (pMembers f r5).map (fun p => (.cons k v p.1, p.2))
                 else if c3 = '}' then some (.cons k v .nil, r5)
                 else none
           else none) := rfl

theorem serJson_length_pos (j : Json) : 0 < (serJson j).length :=
  List.length_pos.mpr (serJson_ne_nil j)

theorem pMembers_step2 (f : Nat) (k R : List Char) :
    pMembers (f + 1) ('"' :: (escStr k ++ '"' :: (':' :: R))) =
      (match pVal f R with
       | none => none
       | some (v, r4) =>
         match r4 with
         | [] => none
         | c3 :: r5 =>
           if c3 = ',' then
             (pMembers f r5).map (fun p => (.cons k v p.1, p.2))
           else if c3 = '}' then some (.cons k v .nil, r5)
           else none) := by
  rw [pMembers_quote, pStr_escStr k (':' :: R)]
  rfl

/-- Round trip of the parser over the serializer, by induction on fuel:
with enough fuel, parsing a serialized value consumes exactly it. -/
theorem parser_roundtrip (f : Nat) :
    (∀ j rest, (serJson j).length < f → digitSafe rest = true →
       pVal f (serJson j ++ rest) = some (j, rest)) ∧
    (∀ l rest, l ≠ JsonList.nil → (serList l).length + 1 < f →
       pElems f (serList l ++ ']' :: rest) = some (l, rest)) ∧
    (∀ m rest, m ≠ JsonMembers.nil → (serMembers m).length + 1 < f →
       pMembers f (serMembers m ++ '}' :: rest) = some (m, rest)) := by
  induction f with
  | zero =>
    refine ⟨?_, ?_, ?_⟩
    · intro j rest h _
      omega
    · intro l rest _ h
      omega
    · intro m rest _ h
      omega
  | succ f ih =>
    obtain ⟨ihV, ihE, ihM⟩ := ih
    refine ⟨?_, ?_, ?_⟩
    · intro j rest hlen hsafe
      cases j with
      | null =>
        rw [show serJson .null = ['n', 'u', 'l', 'l'] from by simp [serJson]]
        simp only [List.cons_append, List.nil_append]
        exact pVal_null f rest
      | bool b =>
        cases b
        · rw [show serJson (.bool false) = ['f', 'a', 'l', 's', 'e'] from by
            simp [serJson]]
          simp only [List.cons_append, List.nil_append]
          exact pVal_false f rest
        · rw [show serJson (.bool true) = ['t', 'r', 'u', 'e'] from by
            simp [serJson]]
          simp only [List.cons_append, List.nil_append]
          exact pVal_true f rest
      | num n =>
        rw [show serJson (.num n) = serNum n from by simp [serJson]]
        by_cases hn : n < 0
        · rw [show serNum n = '-' :: natDigits n.natAbs from by simp [serNum, hn]]
          obtain ⟨d, ds, hds, hall⟩ := natDigits_cons n.natAbs
          rw [hds]
          simp only [List.cons_append]
          rw [pVal_dash]
          have hd : isDigitCh d = true := hall d (by simp)
          rw [if_pos hd]
          rw [show d :: (ds ++ rest) = (d :: ds) ++ rest from rfl]
          rw [pDigits_spec (d :: ds) rest hall hsafe]
          have hv : digitsVal (d :: ds) = n.natAbs := by
            rw [← hds, digitsVal_natDigits]
          rw [hv]
          have hcast : -((n.natAbs : Nat) : Int) = n := by omega
          rw [hcast]
        · rw [show serNum n = natDigits n.toNat from by simp [serNum, hn]]
          obtain ⟨d, ds, hds, hall⟩ := natDigits_cons n.toNat
          rw [hds]
          have hd : isDigitCh d = true := hall d (by simp)
          rw [show (d :: ds) ++ rest = d :: (ds ++ rest) from rfl]
          rw [pVal_digitCase f d (ds ++ rest) hd]
          rw [show d :: (ds ++ rest) = (d :: ds) ++ rest from rfl]
          rw [pDigits_spec (d :: ds) rest hall hsafe]
          have hv : digitsVal (d :: ds) = n.toNat := by
            rw [← hds, digitsVal_natDigits]
          rw [hv]
          have hcast : ((n.toNat : Nat) : Int) = n := by omega
          rw [hcast]
      | str s =>
        rw [show serJson (.str s) ++ rest = '"' :: (escStr s ++ '"' :: rest) from by
          simp [serJson]]
        rw [pVal_quote, pStr_escStr s rest]
        rfl
      | arr l =>
        cases l with
        | nil =>
          rw [show serJson (.arr .nil) ++ rest = '[' :: ']' :: rest from by
            simp [serJson, serList]]
          rw [pVal_lbrack, if_pos rfl]
        | cons j tl =>
          obtain ⟨c0, cs0, hc0, hc0ne⟩ := serJson_head j
          obtain ⟨X, hX⟩ := serList_cons_decomp j tl
          have hlist : serJson (.arr (.cons j tl)) ++ rest =
              '[' :: (c0 :: (cs0 ++ (X ++ ']' :: rest))) := by
            simp [serJson, hX, hc0]
          rw [hlist, pVal_lbrack, if_neg hc0ne]
          have hback : c0 :: (cs0 ++ (X ++ ']' :: rest)) =
              serList (.cons j tl) ++ ']' :: rest := by
            rw [hX, hc0]
            simp
          rw [hback]
          have hbound : (serList (.cons j tl)).length + 1 < f := by
            have he : (serJson (.arr (.cons j tl))).length =
                (serList (.cons j tl)).length + 2 := by
              simp [serJson]
            omega
          rw [ihE (.cons j tl) rest (by simp) hbound]
          rfl
      | obj m =>
        cases m with
        | nil =>
          rw [show serJson (.obj .nil) ++ rest = '{' :: '}' :: rest from by
            simp [serJson, serMembers]]
          rw [pVal_lbrace, if_pos rfl]
        | cons k v tl =>
          obtain ⟨Y, hY⟩ := serMembers_head k v tl
          have hlist : serJson (.obj (.cons k v tl)) ++ rest =
              '{' :: ('"' :: (Y ++ '}' :: rest)) := by
            simp [serJson, hY]
          rw [hlist, pVal_lbrace, if_neg (by decide : ¬ ('"' : Char) = '}')]
          have hback : '"' :: (Y ++ '}' :: rest) =
              serMembers (.cons k v tl) ++ '}' :: rest := by
            rw [hY]
            simp
          rw [hback]
          have hbound : (serMembers (.cons k v tl)).length + 1 < f := by
            have he : (serJson (.obj (.cons k v tl))).length =
                (serMembers (.cons k v tl)).length + 2 := by
              simp [serJson]
            omega
          rw [ihM (.cons k v tl) rest (by simp) hbound]
          rfl
    · intro l rest hne hb
      cases l with
      | nil => exact absurd rfl hne
      | cons j tl =>
        rw [pElems_succ]
        cases tl with
        | nil =>
          rw [show serList (.cons j .nil) = serJson j from by simp [serList]] at hb ⊢
          rw [ihV j (']' :: rest) (by omega) rfl]
          rfl
        | cons j2 tl2 =>
          rw [show serList (.cons j (.cons j2 tl2)) =
            serJson j ++ ',' :: serList (.cons j2 tl2) from by simp [serList]] at hb ⊢
          rw [show (serJson j ++ ',' :: serList (.cons j2 tl2)) ++ ']' :: rest =
            serJson j ++ (',' :: (serList (.cons j2 tl2) ++ ']' :: rest)) from by simp]
          have hblen : (serJson j).length + 1 + (serList (.cons j2 tl2)).length + 1 <
              f + 1 := by
            simp only [List.length_append, List.length_cons] at hb
            omega
          have hjpos := serJson_length_pos j
          rw [ihV j (',' :: (serList (.cons j2 tl2) ++ ']' :: rest))
            (by omega) rfl]
          show (pElems f (serList (.cons j2 tl2) ++ ']' :: rest)).map
            (fun p => (JsonList.cons j p.1, p.2)) = some (.cons j (.cons j2 tl2), rest)
          rw [ihE (.cons j2 tl2) rest (by simp) (by omega)]
          rfl
    · intro m rest hne hb
      cases m with
      | nil => exact absurd rfl hne
      | cons k v tl =>
        cases tl with
        | nil =>
          rw [show serMembers (.cons k v .nil) ++ '}' :: rest =
            '"' :: (escStr k ++ '"' :: (':' :: (serJson v ++ '}' :: rest))) from by
            simp [serMembers]]
          rw [pMembers_step2]
          have hlenE : (serMembers (.cons k v .nil)).length =
              (escStr k).length + (serJson v).length + 3 := by
            simp [serMembers]
            omega
          rw [ihV v ('}' :: rest) (by omega) rfl]
          rfl
        | cons k2 v2 tl2 =>
          rw [show serMembers (.cons k v (.cons k2 v2 tl2)) ++ '}' :: rest =
            '"' :: (escStr k ++ '"' :: (':' :: (serJson v ++
              ',' :: (serMembers (.cons k2 v2 tl2) ++ '}' :: rest)))) from by
            simp [serMembers]]
          rw [pMembers_step2]
          have hlenE : (serMembers (.cons k v (.cons k2 v2 tl2))).length =
              (escStr k).length + (serJson v).length +
                (serMembers (.cons k2 v2 tl2)).length + 4 := by
            simp [serMembers]
            omega
          rw [ihV v (',' :: (serMembers (.cons k2 v2 tl2) ++ '}' :: rest))
            (by omega) rfl]
          show (pMembers f (serMembers (.cons k2 v2 tl2) ++ '}' :: rest)).map
            (fun p => (JsonMembers.cons k v p.1, p.2)) =
            some (.cons k v (.cons k2 v2 tl2), rest)
          rw [ihM (.cons k2 v2 tl2) rest (by simp) (by omega)]
          rfl

/-- Parsing the serialization of any value (with no surrounding text)
returns exactly that value. -/
theorem parseJson_serJson (j : Json) : parseJson (serJson j) = some j := by
  have h := (parser_roundtrip ((serJson j).length + 1)).1 j [] (by omega) (by decide)
  rw [List.append_nil] at h
  rw [parseJson, h]

/-! ## Extraction lemmas -/

theorem dropUntilBrace_append (pre rest : List Char) (h : '{' ∉ pre) :
    dropUntilBrace (pre ++ '{' :: rest) = some ('{' :: rest) := by
  induction pre with
  | nil => simp [dropUntilBrace]
  | cons c cs ih =>
    have hc : c ≠ '{' := by
      intro e
      exact h (e ▸ List.mem_cons_self c cs)
    simp only [List.cons_append, dropUntilBrace]
    rw [if_neg hc]
    exact ih (fun hm => h (List.mem_cons_of_mem c hm))

theorem dropUntilClose_append (pre rest : List Char) (h : '}' ∉ pre) :
    dropUntilClose (pre ++ '}' :: rest) = some ('}' :: rest) := by
  induction pre with
  | nil => simp [dropUntilClose]
  | cons c cs ih =>
    have hc : c ≠ '}' := by
      intro e
      exact h (e ▸ List.mem_cons_self c cs)
    simp only [List.cons_append, dropUntilClose]
    rw [if_neg hc]
    exact ih (fun hm => h (List.mem_cons_of_mem c hm))

/-- The greedy first-brace-to-last-brace extraction recovers a span that
starts with an opening brace and ends with the final closing brace when
the prose before it has no opening brace and the prose after it has no
closing brace. -/
theorem extractJson_wrap (pre mid suf : List Char) (h1 : '{' ∉ pre)
    (h2 : '}' ∉ suf) :
    extractJson (pre ++ ('{' :: mid ++ ['}']) ++ suf) =
      some ('{' :: mid ++ ['}']) := by
  have e1 : pre ++ ('{' :: mid ++ ['}']) ++ suf =
      pre ++ '{' :: (mid ++ '}' :: suf) := by simp
  have hb := dropUntilBrace_append pre (mid ++ '}' :: suf) h1
  have hrev : ('{' :: (mid ++ '}' :: suf)).reverse =
      suf.reverse ++ '}' :: (mid.reverse ++ ['{']) := by simp
  have h2r : '}' ∉ suf.reverse := by simpa using h2
  have hc := dropUntilClose_append suf.reverse (mid.reverse ++ ['{']) h2r
  rw [e1, extractJson, hb, Option.some_bind, hrev, hc]
  simp

/-! ## Claims about the POST /analyze route -/

/-- Claim C1 counterexample: a request whose code field is a whitespace-only
string is NOT rejected with 400 before the external call; the falsy check
lets it through, one upstream fetch happens, and (with a stub reply without
a brace span) the response is a 500, not the 400 client error. -/
theorem C1_counterexample :
    POST "\x7b\"code\":\" \"\x7d" (some "k") (.text "x") =
      (.err 500 "Invalid analysis format", 1) ∧
    (500 : Nat) ≠ 400 ∧ (1 : Nat) ≠ 0 :=
  ⟨rfl, by decide, by decide⟩

/-- Claim C1 (amended): a request whose code field is the empty string is
rejected with the 400 client error and performs no upstream fetch;
whitespace-only code is truthy and proceeds to the external call. -/
theorem C1_empty_code_rejected (body : String) (key : Option String)
    (up : Upstream) (bj : Json) (h1 : parseJson body.data = some bj)
    (h2 : getField bj "code".data = some (.str [])) :
    POST body key up = (.err 400 "Code is required", 0) := by
  have hfalsy : jsFalsy (getField bj "code".data) = true := by
    rw [h2]
    rfl
  cases bj with
  | null => simp [getField] at h2
  | bool b => simp [POST, h1, hfalsy]
  | num n => simp [POST, h1, hfalsy]
  | str s => simp [POST, h1, hfalsy]
  | arr l => simp [POST, h1, hfalsy]
  | obj m => simp [POST, h1, hfalsy]

/-- Claim C1 witness: concrete empty-code request. -/
theorem C1_witness :
    parseJson "\x7b\"code\":\"\"\x7d".data =
      some (.obj (.cons "code".data (.str []) .nil)) ∧
    POST "\x7b\"code\":\"\"\x7d" (some "k") .httpError =
      (.err 400 "Code is required", 0) :=
  ⟨rfl, C1_empty_code_rejected "\x7b\"code\":\"\"\x7d" (some "k") .httpError
    (.obj (.cons "code".data (.str []) .nil)) rfl rfl⟩

/-- Claim C2 counterexample: an upstream reply whose extracted span is not
valid JSON is answered with the generic 500 Internal server error coming
from the catch block, not with the Invalid analysis format message the
claim requires. -/
theorem C2_counterexample :
    POST "\x7b\"code\":\"x\"\x7d" (some "k") (.text "\x7boops\x7d") =
      (.err 500 "Internal server error", 1) ∧
    "Internal server error" ≠ "Invalid analysis format" :=
  ⟨rfl, by decide⟩

/-- Claim C2 (amended): once a request with truthy code and a configured
key reaches a nonempty upstream text reply, exactly one fetch happens and:
no brace span gives 500 Invalid analysis format; a span that fails to
parse gives 500 Internal server error via the catch; a span that parses is
returned as-is with no field validation. -/
theorem C2_reply_handling (body t : String) (key : String) (bj : Json)
    (hb : parseJson body.data = some bj) (hnn : bj ≠ .null)
    (hcode : jsFalsy (getField bj "code".data) = false)
    (ht : t.isEmpty = false) :
    (extractJson t.data = none →
      POST body (some key) (.text t) = (.err 500 "Invalid analysis format", 1)) ∧
    (∀ span, extractJson t.data = some span → parseJson span = none →
      POST body (some key) (.text t) = (.err 500 "Internal server error", 1)) ∧
    (∀ span j, extractJson t.data = some span → parseJson span = some j →
      POST body (some key) (.text t) = (.ok j, 1)) := by
  have hpost : POST body (some key) (.text t) =
      (match extractJson t.data with
       | none => (.err 500 "Invalid analysis format", 1)
       | some span =>
         match parseJson span with
         | none => (.err 500 "Internal server error", 1)
         | some analysis => (.ok analysis, 1)) := by
    cases bj with
    | null => exact absurd rfl hnn
    | bool b => simp [POST, hb, hcode, ht]
    | num n => simp [POST, hb, hcode, ht]
    | str s => simp [POST, hb, hcode, ht]
    | arr l => simp [POST, hb, hcode, ht]
    | obj m => simp [POST, hb, hcode, ht]
  refine ⟨?_, ?_, ?_⟩
  · intro he
    rw [hpost, he]
  · intro span he hp
    rw [hpost, he]
    simp [hp]
  · intro span j he hp
    rw [hpost, he]
    simp [hp]

/-- Claim C2 witness: concrete reply with no brace span. -/
theorem C2_witness :
    POST "\x7b\"code\":\"x\"\x7d" (some "k") (.text "no braces at all") =
      (.err 500 "Invalid analysis format", 1) :=
  (C2_reply_handling "\x7b\"code\":\"x\"\x7d" "no braces at all" "k"
    (.obj (.cons "code".data (.str ['x']) .nil)) rfl
    (fun h => Json.noConfusion h) rfl rfl).1 rfl

/-- Claim C4: wrapping the serialization of any JSON object in prose whose
prefix has no opening brace and whose suffix has no closing brace, the
route extraction followed by parsing returns the object unchanged. -/
theorem C4_roundtrip_extraction (ms : JsonMembers) (pre suf : List Char)
    (h1 : '{' ∉ pre) (h2 : '}' ∉ suf) :
    (extractJson (pre ++ serJson (.obj ms) ++ suf)).bind parseJson =
      some (.obj ms) := by
  have hser : serJson (.obj ms) = '{' :: serMembers ms ++ ['}'] := by
    simp [serJson]
  rw [hser, extractJson_wrap pre (serMembers ms) suf h1 h2, Option.some_bind,
    ← hser]
  exact parseJson_serJson (.obj ms)

/-- Claim C4 witness: concrete prose-wrapped object. -/
theorem C4_witness :
    ('{' ∉ "Sure, here is the analysis: ".data) ∧
    ('}' ∉ " Hope this helps.".data) ∧
    (extractJson ("Sure, here is the analysis: ".data ++
        serJson (.obj (.cons "score".data (.num 75) .nil)) ++
        " Hope this helps.".data)).bind parseJson =
      some (.obj (.cons "score".data (.num 75) .nil)) :=
  ⟨by decide, by decide,
    C4_roundtrip_extraction (.cons "score".data (.num 75) .nil)
      "Sure, here is the analysis: ".data " Hope this helps.".data
      (by decide) (by decide)⟩

/-- Claim C10: a request body that is not valid JSON makes the body parse
throw inside the try block; the handler returns the generic 500 Internal
server error (not the 400 client error) and performs no upstream fetch. -/
theorem C10_invalid_body (body : String) (key : Option String) (up : Upstream)
    (h : parseJson body.data = none) :
    POST body key up = (.err 500 "Internal server error", 0) := by
  simp [POST, h]

/-- Claim C10 witness: concrete malformed body. -/
theorem C10_witness :
    parseJson "not json".data = none ∧
    POST "not json" (some "k") .httpError =
      (.err 500 "Internal server error", 0) :=
  ⟨rfl, C10_invalid_body "not json" (some "k") .httpError rfl⟩

/-! ## Claims about the mock analyzer -/

/-- Claim C3 counterexample: the eval rule triggers on the substring with
the parenthesis, but the line scan looks for the substring without it; on
this input the first line containing the triggering substring is line 2,
yet the emitted issue is attributed to line 1. -/
theorem C3_counterexample :
    (analyzeCode "evaluate\neval(x)").issues.map (fun i => i.line) = [1] ∧
    firstLineWith "evaluate\neval(x)" (fun l => hasSubL l "eval(".data) = 2 ∧
    (1 : Nat) ≠ 2 :=
  ⟨rfl, rfl, by decide⟩

/-- Claim C3 (amended): for each matched rule the emitted line is the
1-based index of the first line containing the scanned substring (0 when
no line does), where the scans are SELECT-and-plus on one line, plain eval
without the parenthesis, and console.log respectively. -/
theorem C3_line_attribution (code : String) :
    (analyzeCode code).issues.map (fun i => i.line) =
      (if hasSub code "SELECT" && hasSub code "+" then
        [firstLineWith code
          (fun l => hasSubL l "SELECT".data && hasSubL l "+".data)]
       else []) ++
      (if hasSub code "eval(" then
        [firstLineWith code (fun l => hasSubL l "eval".data)]
       else []) ++
      (if hasSub code "console.log" then
        [firstLineWith code (fun l => hasSubL l "console.log".data)]
       else []) := by
  cases h1 : hasSub code "SELECT" && hasSub code "+" <;>
    cases h2 : hasSub code "eval(" <;>
      cases h3 : hasSub code "console.log" <;>
        simp [analyzeCode, h1, h2, h3, sqlIssue, evalIssue, consoleIssue]

/-- Claim C5: an input triggering all three rules scores exactly
max(0, 85-25-20-5) = 35 with exactly three issues whose severities are, in
discovery order, error, error, warning. -/
theorem C5_all_rules (code : String)
    (h1 : hasSub code "SELECT" = true) (h2 : hasSub code "+" = true)
    (h3 : hasSub code "eval(" = true) (h4 : hasSub code "console.log" = true) :
    (analyzeCode code).score = 35 ∧
    (analyzeCode code).issues.length = 3 ∧
    (analyzeCode code).issues.map (fun i => i.severity) =
      [.error, .error, .warning] := by
  refine ⟨?_, ?_, ?_⟩ <;>
    simp [analyzeCode, h1, h2, h3, h4, sqlIssue, evalIssue, consoleIssue]

/-- Claim C5 witness: concrete input triggering all three rules. -/
theorem C5_witness :
    hasSub "SELECT + eval( console.log" "SELECT" = true ∧
    hasSub "SELECT + eval( console.log" "+" = true ∧
    hasSub "SELECT + eval( console.log" "eval(" = true ∧
    hasSub "SELECT + eval( console.log" "console.log" = true ∧
    ((analyzeCode "SELECT + eval( console.log").score = 35 ∧
     (analyzeCode "SELECT + eval( console.log").issues.length = 3 ∧
     (analyzeCode "SELECT + eval( console.log").issues.map
       (fun i => i.severity) = [.error, .error, .warning]) :=
  ⟨rfl, rfl, rfl, rfl,
    C5_all_rules "SELECT + eval( console.log" rfl rfl rfl rfl⟩

/-- Claim C6: the documented SQL-injection example yields score 60 and one
error issue at line 1 of type Security whose message contains the words
SQL injection. -/
theorem C6_sql_example :
    (analyzeCode
      "const query = \"SELECT * FROM users WHERE id = \" + userId;").score =
      60 ∧
    (analyzeCode
      "const query = \"SELECT * FROM users WHERE id = \" + userId;").issues.map
        (fun i => (i.line, i.severity, i.type,
          hasSub i.message "SQL injection")) =
      [(1, .error, "Security", true)] :=
  ⟨rfl, rfl⟩

/-- Claim C7: an input triggering none of the three rules yields score 85,
no issues, and Good security and performance ratings. -/
theorem C7_clean_code (code : String)
    (h1 : (hasSub code "SELECT" && hasSub code "+") = false)
    (h2 : hasSub code "eval(" = false)
    (h3 : hasSub code "console.log" = false) :
    (analyzeCode code).score = 85 ∧
    (analyzeCode code).issues = [] ∧
    (analyzeCode code).metrics.security = .Good ∧
    (analyzeCode code).metrics.performance = .Good := by
  refine ⟨?_, ?_, ?_, ?_⟩ <;> simp [analyzeCode, h1, h2, h3]

/-- Claim C7 witness: concrete clean input. -/
theorem C7_witness :
    (hasSub "hello" "SELECT" && hasSub "hello" "+") = false ∧
    hasSub "hello" "eval(" = false ∧
    hasSub "hello" "console.log" = false ∧
    ((analyzeCode "hello").score = 85 ∧
     (analyzeCode "hello").issues = [] ∧
     (analyzeCode "hello").metrics.security = .Good ∧
     (analyzeCode "hello").metrics.performance = .Good) :=
  ⟨rfl, rfl, rfl, C7_clean_code "hello" rfl rfl rfl⟩

/-- Claim C8: the derived metrics follow the documented thresholds:
complexity from raw length, maintainability from the final score,
security Poor exactly when a Security issue exists (else Good), and
performance always Good. -/
theorem C8_metrics (code : String) :
    ((analyzeCode code).metrics.complexity =
      (if code.length > 500 then .High
       else if code.length > 200 then .Medium else .Low)) ∧
    ((analyzeCode code).metrics.maintainability =
      (if (analyzeCode code).score > 70 then .Good
       else if (analyzeCode code).score > 50 then .Fair else .Poor)) ∧
    ((analyzeCode code).metrics.security = .Poor ↔
      ∃ i ∈ (analyzeCode code).issues, i.type = "Security") ∧
    ((analyzeCode code).metrics.security = .Poor ∨
      (analyzeCode code).metrics.security = .Good) ∧
    (analyzeCode code).metrics.performance = .Good := by
  cases h1 : hasSub code "SELECT" && hasSub code "+" <;>
    cases h2 : hasSub code "eval(" <;>
      cases h3 : hasSub code "console.log" <;>
        refine ⟨rfl, ?_, ?_, ?_, rfl⟩ <;>
          simp [analyzeCode, h1, h2, h3, sqlIssue, evalIssue, consoleIssue]

/-- Claim C9: the score always lies in the closed interval from 35 to 85,
so the final clamp to a minimum of 0 never changes the value: the score
equals the raw 85 minus the three conditional deductions. -/
theorem C9_score_bounds (code : String) :
    35 ≤ (analyzeCode code).score ∧ (analyzeCode code).score ≤ 85 ∧
    (analyzeCode code).score =
      85 - (if hasSub code "SELECT" && hasSub code "+" then 25 else 0) -
        (if hasSub code "eval(" then 20 else 0) -
        (if hasSub code "console.log" then 5 else 0) := by
  cases h1 : hasSub code "SELECT" && hasSub code "+" <;>
    cases h2 : hasSub code "eval(" <;>
      cases h3 : hasSub code "console.log" <;>
        refine ⟨?_, ?_, ?_⟩ <;> simp [analyzeCode, h1, h2, h3]
